import Mathlib

/-!
Verification of the `auto-lecture-split` pipeline.

This file gives a shallow embedding of the original logic of the repository:
the transcript/slide alignment engine (`align_transcription_with_slides`, in
its two revisions from `video_processing.py` and `video_file.py`), the
subtitle timestamp parser (`time_to_seconds`), the detector-method dispatch of
`detect_slide_changes`, the cache-skip branch of `transcribe_audio`, and the
`initial_prompt` resolution fragment of the three CLI commands.

Timestamps are modelled as rationals (the Python code uses floats for
seconds); file contents and filesystem state are modelled explicitly; calls
into third-party libraries (whisper, scenedetect, ffmpeg) are modelled as
abstract function parameters since their internals are out of scope.
-/

/-- Model of `scenedetect.FrameTimecode`: the alignment code only observes a
timecode through its `get_seconds()` value (a number of seconds) and its
`get_timecode()` rendering (a string).  Both are carried as fields. -/
structure FrameTimecode where
  get_seconds : ℚ
  get_timecode : String
deriving DecidableEq, Inhabited

/-- One output row of the alignment engine (one row of the resulting
DataFrame): a `start` column, an `end` column (rendered as a string timecode
in the `video_processing.py` revision and as seconds in the `video_file.py`
revision, hence the type parameter) and the concatenated `text`. -/
structure AlignedRow (α : Type) where
  start : α
  «end» : α
  text : String
deriving DecidableEq

instance (α : Type) [Inhabited α] : Inhabited (AlignedRow α) :=
  ⟨⟨default, default, ""⟩⟩

/-- In-place update of the element at index `i` of a list, the model of
`data[idx]['text'] += ...` acting on the mutable list of row dicts.  Out of
range indices leave the list unchanged. -/
def modifyAt : List α → Nat → (α → α) → List α
  | [], _, _ => []
  | x :: xs, 0, f => f x :: xs
  | x :: xs, i + 1, f => x :: modifyAt xs i f

/-- The binary search of Python's `bisect.bisect_right` restricted to the
range `[lo, hi)`:  `lo`/`hi` evolve exactly as in the CPython implementation
(`mid = (lo+hi)//2`; go left when `x < a[mid]`, else right).  The first
argument is recursion fuel: each step shrinks `hi - lo`, so any fuel
`≥ hi - lo` gives the search's exact answer (`bisect_right` below passes
`a.length`); structural recursion on fuel keeps the function kernel-reducible
on concrete inputs. -/
def bisect_right_aux (a : List ℚ) (x : ℚ) : Nat → Nat → Nat → Nat
  | 0, lo, _ => lo
  | fuel + 1, lo, hi =>
    if lo < hi then
      let mid := (lo + hi) / 2
      if x < a.getD mid 0 then
        bisect_right_aux a x fuel lo mid
      else
        bisect_right_aux a x fuel (mid + 1) hi
    else
      lo

/-- Model of `bisect.bisect_right(a, x)`: rightmost insertion point for `x`
in `a`. -/
def bisect_right (a : List ℚ) (x : ℚ) : Nat :=
  bisect_right_aux a x a.length 0 a.length

/-- Model of Python / pandas `str.strip()` on the character list of a string:
drop whitespace from both ends. -/
def stripChars (l : List Char) : List Char :=
  ((l.dropWhile Char.isWhitespace).reverse.dropWhile Char.isWhitespace).reverse

/-- Model of `pandas.Series.str.strip()` applied to one cell (same as
Python's `str.strip()`): remove leading and trailing whitespace. -/
def pyStrip (s : String) : String :=
  String.mk (stripChars s.data)

/-- A string has no leading and no trailing whitespace character. -/
def noEdgeWhitespace (s : String) : Prop :=
  (∀ c, s.data.head? = some c → ¬ c.isWhitespace) ∧
  (∀ c, s.data.getLast? = some c → ¬ c.isWhitespace)

/-- Greedily take at most `n` leading decimal digits, returning them and the
rest of the input (the regex fragments `\d{1,2}` / `\d{1,6}` used by
CPython's `strptime`). -/
def takeDigitsUpTo : Nat → List Char → List Char × List Char
  | 0, l => ([], l)
  | _ + 1, [] => ([], [])
  | n + 1, c :: rest =>
    if c.isDigit then
      let (ds, r) := takeDigitsUpTo n rest
      (c :: ds, r)
    else
      ([], c :: rest)

/-- Numeric value of a list of decimal digit characters. -/
def digitsVal (ds : List Char) : Nat :=
  ds.foldl (fun a c => a * 10 + (c.toNat - 48)) 0

/-- Model of `datetime.strptime(time_str, '%H:%M:%S.%f')`: decompose a
subtitle timestamp into (hours, minutes, seconds, microseconds).  `%H`, `%M`,
`%S` each match one or two digits with the CPython range checks (hour ≤ 23,
minute ≤ 59, second ≤ 61); `%f` matches one to six digits and is zero-padded
on the right to microseconds; nothing may remain after the fields.  A failed
match is `none` (a raised `ValueError` in Python). -/
def strptime_HMSf (time_str : String) : Option (Nat × Nat × Nat × Nat) :=
  let (hd, r1) := takeDigitsUpTo 2 time_str.data
  if hd.isEmpty then none else
  match r1 with
  | ':' :: r2 =>
    let (md, r3) := takeDigitsUpTo 2 r2
    if md.isEmpty then none else
    match r3 with
    | ':' :: r4 =>
      let (sd, r5) := takeDigitsUpTo 2 r4
      if sd.isEmpty then none else
      match r5 with
      | '.' :: r6 =>
        let (fd, r7) := takeDigitsUpTo 6 r6
        if fd.isEmpty then none else
        if r7.isEmpty then
          let h := digitsVal hd
          let m := digitsVal md
          let sec := digitsVal sd
          if h ≤ 23 ∧ m ≤ 59 ∧ sec ≤ 61 then
            some (h, m, sec, digitsVal fd * 10 ^ (6 - fd.length))
          else none
        else none
      | _ => none
    | _ => none
  | _ => none

/-- Model of `time_to_seconds` (identical in `video_processing.py` and
`video_file.py`): parse `HH:MM:SS.ffffff` with `strptime` and return
`hour*3600 + minute*60 + second + microsecond/1e6` seconds; `none` models the
exception raised on a malformed timestamp. -/
def time_to_seconds (time_str : String) : Option ℚ :=
  (strptime_HMSf time_str).map fun x =>
    (x.1 : ℚ) * 3600 + (x.2.1 : ℚ) * 60 + (x.2.2.1 : ℚ) + (x.2.2.2 : ℚ) / 1000000

/-- The per-segment slide lookup inside the alignment loop: compute
`idx = bisect.bisect_right(starts, t) - 1` and return `some idx` when the
guard `idx >= 0 and idx < n and starts[idx] <= t < ends[idx]` holds (`n` is
`len(data)`), `none` otherwise (segment dropped). -/
def assign_index (starts ends : List ℚ) (n : Nat) (t : ℚ) : Option Nat :=
  let idx : Int := (bisect_right starts t : Int) - 1
  if 0 ≤ idx ∧ idx < (n : Int) ∧
      starts.getD idx.toNat 0 ≤ t ∧ t < ends.getD idx.toNat 0 then
    some idx.toNat
  else
    none

/-- An ordered, non-overlapping slide interval sequence: each interval is
non-degenerate (`start < end`) and consecutive intervals do not overlap
(`end i ≤ start (i+1)`). -/
def OrderedSlides (sl : List (FrameTimecode × FrameTimecode)) : Prop :=
  (∀ i, i < sl.length →
    (sl.getD i default).1.get_seconds < (sl.getD i default).2.get_seconds) ∧
  (∀ i, i < sl.length → i + 1 < sl.length →
    (sl.getD i default).2.get_seconds ≤ (sl.getD (i + 1) default).1.get_seconds)

instance (sl : List (FrameTimecode × FrameTimecode)) : Decidable (OrderedSlides sl) := by
  unfold OrderedSlides
  infer_instance

/-- Conversion of one transcription segment's timestamps, the element-wise
body of the list comprehension
`[(time_to_seconds(seg[0]), time_to_seconds(seg[1]), seg[2]) for seg in transcriptions]`
(a malformed timestamp raises, modelled by `none`). -/
def parse_segment (seg : String × String × String) : Option (ℚ × ℚ × String) :=
  match time_to_seconds seg.1, time_to_seconds seg.2.1 with
  | some s, some e => some (s, e, seg.2.2)
  | _, _ => none

namespace VideoProcessing

/-- One iteration of the assignment loop of
`video_processing.align_transcription_with_slides` (lines 166-175): look the
segment's start up among the slide starts with `bisect_right`, check the
containment guard against `slide_times_end_float`, and append
`text + ' '` to the matching row's text. -/
def step (starts ends : List ℚ) (data : List (AlignedRow String))
    (seg : ℚ × ℚ × String) : List (AlignedRow String) :=
  match assign_index starts ends data.length seg.1 with
  | some i => modifyAt data i fun r => { r with text := r.text ++ seg.2.2 ++ " " }
  | none => data

/-- Body of `video_processing.align_transcription_with_slides` after the
timestamp conversion (lines 155-181): rows carry the slides' `get_timecode()`
strings; texts accumulate through the loop and are finally stripped
(`df['text'].str.strip()`). -/
def align_on_seconds (transcriptions : List (ℚ × ℚ × String))
    (slide_times : List (FrameTimecode × FrameTimecode)) :
    List (AlignedRow String) :=
  let slide_times_start_float := slide_times.map fun p => p.1.get_seconds
  let slide_times_end_float := slide_times.map fun p => p.2.get_seconds
  let data : List (AlignedRow String) :=
    slide_times.map fun p => ⟨p.1.get_timecode, p.2.get_timecode, ""⟩
  let data := transcriptions.foldl (step slide_times_start_float slide_times_end_float) data
  data.map fun r => { r with text := pyStrip r.text }

/-- `video_processing.align_transcription_with_slides` (lines 133-181): the
transcription timestamps are first converted with `time_to_seconds` (a
malformed timestamp raises, modelled by `none`), then the segments are
assigned to slide rows. -/
def align_transcription_with_slides
    (transcriptions : List (String × String × String))
    (slide_times : List (FrameTimecode × FrameTimecode)) :
    Option (List (AlignedRow String)) :=
  match transcriptions.mapM parse_segment with
  | some ts => some (align_on_seconds ts slide_times)
  | none => none

end VideoProcessing

namespace VideoFile

/-- One iteration of the assignment loop of
`video_file.align_transcription_with_slides` (lines 227-236): same lookup,
but the containment guard reads the upper bound from the row itself
(`data[idx]['end']`, which holds `end.get_seconds()`). -/
def step (starts : List ℚ) (data : List (AlignedRow ℚ))
    (seg : ℚ × ℚ × String) : List (AlignedRow ℚ) :=
  match assign_index starts (data.map fun r => r.«end») data.length seg.1 with
  | some i => modifyAt data i fun r => { r with text := r.text ++ seg.2.2 ++ " " }
  | none => data

/-- Body of `video_file.align_transcription_with_slides` after the timestamp
conversion (lines 217-242): rows carry the slides' `get_seconds()` values. -/
def align_on_seconds (transcriptions : List (ℚ × ℚ × String))
    (slide_times : List (FrameTimecode × FrameTimecode)) :
    List (AlignedRow ℚ) :=
  let slide_times_float := slide_times.map fun p => p.1.get_seconds
  let data : List (AlignedRow ℚ) :=
    slide_times.map fun p => ⟨p.1.get_seconds, p.2.get_seconds, ""⟩
  let data := transcriptions.foldl (step slide_times_float) data
  data.map fun r => { r with text := pyStrip r.text }

/-- `video_file.align_transcription_with_slides` (lines 195-242). -/
def align_transcription_with_slides
    (transcriptions : List (String × String × String))
    (slide_times : List (FrameTimecode × FrameTimecode)) :
    Option (List (AlignedRow ℚ)) :=
  match transcriptions.mapM parse_segment with
  | some ts => some (align_on_seconds ts slide_times)
  | none => none

end VideoFile

/-- The five scenedetect detector classes selectable by
`detect_slide_changes`, each carrying the threshold it is constructed
with. -/
inductive Detector where
  | adaptiveDetector (adaptive_threshold : ℚ)
  | contentDetector (threshold : ℚ)
  | thresholdDetector (threshold : ℚ)
  | histogramDetector (threshold : ℚ)
  | hashDetector (threshold : ℚ)
deriving DecidableEq

/-- The method-name dispatch chain of `detect_slide_changes` (identical in
`video_processing.py` lines 94-106 and `video_file.py` lines 156-168): the
five recognized names construct the corresponding detector, any other name
raises `ValueError('Invalid detection method: ...')` (modelled as
`Except.error`). -/
def choose_detector (method : String) (threshold : ℚ) : Except String Detector :=
  if method = "adaptive" then .ok (.adaptiveDetector threshold)
  else if method = "content" then .ok (.contentDetector threshold)
  else if method = "threshold" then .ok (.thresholdDetector threshold)
  else if method = "histogram" then .ok (.histogramDetector threshold)
  else if method = "hash" then .ok (.hashDetector threshold)
  else .error ("Invalid detection method: " ++ method)

/-- `detect_slide_changes` with the scenedetect library abstracted: after the
dispatch chain picks a detector, the detector is added to the scene manager
and `detect_scenes` runs, producing the scene list; `detect_scenes` is the
abstract model of that whole library interaction.  An unrecognized method
name raises before any detector is constructed, added or invoked, so the
error result does not depend on `detect_scenes` at all. -/
def detect_slide_changes (method : String) (threshold : ℚ)
    (detect_scenes : Detector → List (FrameTimecode × FrameTimecode)) :
    Except String (List (FrameTimecode × FrameTimecode)) :=
  match choose_detector method threshold with
  | .ok detector => .ok (detect_scenes detector)
  | .error e => .error e

namespace AudioProcessing

/-- A parsed subtitle file: the `(start, end, text)` caption triples that
`webvtt.read` returns. -/
abbrev VttDoc := List (String × String × String)

/-- `audio_processing.transcribe_audio` (lines 40-94) over an explicit
filesystem `files : path ↦ contents`.  The whisper model invocation
(`model.transcribe`) is the abstract parameter `model_transcribe`, and
`write_result_as_vtt` models writing the whisper result with the vtt writer
and reading the written file back with `webvtt.read`.  If the transcription
file already exists and `overwrite` is false the cached file is read back and
the model result slot is `none`; otherwise the model runs, the file is
written, and the result is returned alongside the read-back captions.
Returns (updated filesystem, (segments, optional whisper result)). -/
def transcribe_audio {Result : Type}
    (files : String → Option VttDoc)
    (transcription_path : String)
    (overwrite : Bool)
    (model_transcribe : Unit → Result)
    (write_result_as_vtt : Result → VttDoc) :
    (String → Option VttDoc) × (VttDoc × Option Result) :=
  if overwrite = false ∧ (files transcription_path).isSome then
    (files, ((files transcription_path).getD [], none))
  else
    let result := model_transcribe ()
    let captions := write_result_as_vtt result
    (fun p => if p = transcription_path then some captions else files p,
     (captions, some result))

end AudioProcessing

namespace Cli

/-- The `initial_prompt` resolution fragment of the CLI command
`split_video_file` (`cli.py` lines 156-169): the local `initial_prompt` is
assigned only under the guard
`if initial_prompt_path or initial_prompt_path != '':` (string truthiness is
non-emptiness), and the subsequent `transcribe_audio(...,
initial_prompt=initial_prompt, ...)` call raises `UnboundLocalError` when the
guard was false.  `read_file` models `Path(...).open('r').read()`. -/
def split_video_file_initial_prompt (initial_prompt_path : String)
    (read_file : String → String) : Except String String :=
  if initial_prompt_path ≠ "" ∨ initial_prompt_path ≠ "" then
    .ok (read_file initial_prompt_path)
  else
    .error "UnboundLocalError: local variable referenced before assignment"

/-- The identical fragment of `transcribe_video_file` (`cli.py` lines
298-311). -/
def transcribe_video_file_initial_prompt (initial_prompt_path : String)
    (read_file : String → String) : Except String String :=
  if initial_prompt_path ≠ "" ∨ initial_prompt_path ≠ "" then
    .ok (read_file initial_prompt_path)
  else
    .error "UnboundLocalError: local variable referenced before assignment"

/-- The identical fragment of `transcribe_audio_file` (`cli.py` lines
391-404). -/
def transcribe_audio_file_initial_prompt (initial_prompt_path : String)
    (read_file : String → String) : Except String String :=
  if initial_prompt_path ≠ "" ∨ initial_prompt_path ≠ "" then
    .ok (read_file initial_prompt_path)
  else
    .error "UnboundLocalError: local variable referenced before assignment"

end Cli

/-- Concatenation of the segments' texts, each followed by the separating
space appended by the loop (`data[idx]['text'] += text + ' '`). -/
def joined_texts : List (ℚ × ℚ × String) → String
  | [] => ""
  | s :: rest => s.2.2 ++ " " ++ joined_texts rest

/-- A tiny concrete filesystem with one cached transcription file, used to
instantiate the caching theorem. -/
def cachedFiles : String → Option AudioProcessing.VttDoc := fun p =>
  if p = "output/transcription.vtt" then
    some [("00:00:00.000", "00:00:01.000", "hello")]
  else
    none

/-- The concrete slide list of the worked example in the specification:
intervals `[(0, 10), (10, 25)]`. -/
def exampleSlides : List (FrameTimecode × FrameTimecode) :=
  [(⟨0, "00:00:00.000"⟩, ⟨10, "00:00:10.000"⟩),
   (⟨10, "00:00:10.000"⟩, ⟨25, "00:00:25.000"⟩)]

/-! ## Basic lemmas about the list and string helpers -/

lemma modifyAt_length (f : α → α) : ∀ (l : List α) (i : Nat),
    (modifyAt l i f).length = l.length := by
  intro l
  induction l with
  | nil => intro i; rfl
  | cons x xs ih =>
    intro i
    cases i with
    | zero => rfl
    | succ j => simpa [modifyAt] using ih j

lemma modifyAt_getD_of_ge (f : α → α) : ∀ (l : List α) (i : Nat),
    l.length ≤ i → modifyAt l i f = l := by
  intro l
  induction l with
  | nil => intro i _; rfl
  | cons x xs ih =>
    intro i hi
    cases i with
    | zero => simp at hi
    | succ j =>
      simp only [List.length_cons] at hi
      simp [modifyAt, ih j (by omega)]

lemma modifyAt_getD_eq [Inhabited α] (f : α → α) : ∀ (l : List α) (i : Nat),
    i < l.length → (modifyAt l i f).getD i default = f (l.getD i default) := by
  intro l
  induction l with
  | nil => intro i hi; simp at hi
  | cons x xs ih =>
    intro i hi
    cases i with
    | zero => rfl
    | succ j =>
      simp only [List.length_cons] at hi
      simpa [modifyAt] using ih j (by omega)

lemma modifyAt_getD_ne [Inhabited α] (f : α → α) : ∀ (l : List α) (i j : Nat),
    j ≠ i → (modifyAt l i f).getD j default = l.getD j default := by
  intro l
  induction l with
  | nil => intro i j _; rfl
  | cons x xs ih =>
    intro i j hne
    cases i with
    | zero =>
      cases j with
      | zero => exact absurd rfl hne
      | succ k => rfl
    | succ i' =>
      cases j with
      | zero => rfl
      | succ k => simpa [modifyAt] using ih i' k (by omega)

lemma map_modifyAt_invariant (g : α → β) (f : α → α)
    (hf : ∀ x, g (f x) = g x) : ∀ (l : List α) (i : Nat),
    (modifyAt l i f).map g = l.map g := by
  intro l
  induction l with
  | nil => intro i; rfl
  | cons x xs ih =>
    intro i
    cases i with
    | zero => simp [modifyAt, hf]
    | succ j => simp [modifyAt, ih j]

lemma getD_map_of_lt (f : α → β) (d : α) (l : List α) (i : Nat)
    (h : i < l.length) : (l.map f).getD i (f d) = f (l.getD i d) := by
  rw [List.getD_eq_getElem _ _ (by simpa using h), List.getD_eq_getElem _ _ h]
  simp

lemma length_foldl_invariant {σ ρ : Type} (g : σ → ρ → σ) (len : σ → Nat)
    (hg : ∀ s r, len (g s r) = len s) :
    ∀ (l : List ρ) (s : σ), len (l.foldl g s) = len s := by
  intro l
  induction l with
  | nil => intro s; rfl
  | cons r rest ih => intro s; simpa [ih] using hg s r

lemma stripChars_nil : stripChars [] = [] := rfl

lemma pyStrip_empty : pyStrip "" = "" := rfl

lemma head?_stripChars_not_ws (l : List Char) (c : Char)
    (h : (stripChars l).head? = some c) : ¬ c.isWhitespace := by
  unfold stripChars at h
  rw [List.head?_reverse] at h
  have hsplit := List.takeWhile_append_dropWhile
    (p := Char.isWhitespace) (l := (l.dropWhile Char.isWhitespace).reverse)
  set B := (l.dropWhile Char.isWhitespace).reverse.dropWhile Char.isWhitespace with hB
  have h1 : ((l.dropWhile Char.isWhitespace).reverse).getLast? = some c := by
    rw [← hsplit, List.getLast?_append, h]; rfl
  rw [List.getLast?_reverse] at h1
  have := List.head?_dropWhile_not (Char.isWhitespace) l
  rw [h1] at this
  simpa using this

lemma getLast?_stripChars_not_ws (l : List Char) (c : Char)
    (h : (stripChars l).getLast? = some c) : ¬ c.isWhitespace := by
  unfold stripChars at h
  rw [List.getLast?_reverse] at h
  have := List.head?_dropWhile_not
    (Char.isWhitespace) (l.dropWhile Char.isWhitespace).reverse
  rw [h] at this
  simpa using this

lemma noEdgeWhitespace_pyStrip (s : String) : noEdgeWhitespace (pyStrip s) := by
  constructor
  · intro c hc
    exact head?_stripChars_not_ws s.data c hc
  · intro c hc
    exact getLast?_stripChars_not_ws s.data c hc

/-! ## Correctness of the `bisect_right` model on sorted input -/

lemma bisect_right_aux_spec (a : List ℚ) (x : ℚ)
    (hs : ∀ i j, i ≤ j → j < a.length → a.getD i 0 ≤ a.getD j 0) :
    ∀ (fuel lo hi : Nat), hi - lo ≤ fuel → lo ≤ hi → hi ≤ a.length →
      lo ≤ bisect_right_aux a x fuel lo hi ∧
      bisect_right_aux a x fuel lo hi ≤ hi ∧
      (∀ i, lo ≤ i → i < bisect_right_aux a x fuel lo hi → a.getD i 0 ≤ x) ∧
      (∀ i, bisect_right_aux a x fuel lo hi ≤ i → i < hi → x < a.getD i 0) := by
  intro fuel
  induction fuel with
  | zero =>
    intro lo hi hfuel hlh _
    have hr : bisect_right_aux a x 0 lo hi = lo := rfl
    rw [hr]
    exact ⟨le_refl _, hlh, fun i h1 h2 => absurd h2 (by omega),
      fun i h1 h2 => absurd h2 (by omega)⟩
  | succ n ih =>
    intro lo hi hfuel hlh hha
    have hr : bisect_right_aux a x (n + 1) lo hi
        = if lo < hi then
            (if x < a.getD ((lo + hi) / 2) 0 then
              bisect_right_aux a x n lo ((lo + hi) / 2)
            else
              bisect_right_aux a x n ((lo + hi) / 2 + 1) hi)
          else lo := rfl
    rw [hr]
    by_cases hlt : lo < hi
    · rw [if_pos hlt]
      have hmid_lt : (lo + hi) / 2 < hi := by
        have : lo + hi < 2 * hi := by omega
        exact Nat.div_lt_of_lt_mul this
      have hmid_ge : lo ≤ (lo + hi) / 2 := by
        have : lo * 2 ≤ lo + hi := by omega
        exact (Nat.le_div_iff_mul_le (by omega)).mpr this
      by_cases hx : x < a.getD ((lo + hi) / 2) 0
      · rw [if_pos hx]
        obtain ⟨h1, h2, h3, h4⟩ :=
          ih lo ((lo + hi) / 2) (by omega) (by omega) (by omega)
        refine ⟨h1, by omega, h3, ?_⟩
        intro i hri hihi
        by_cases hi2 : i < (lo + hi) / 2
        · exact h4 i hri hi2
        · calc x < a.getD ((lo + hi) / 2) 0 := hx
            _ ≤ a.getD i 0 := hs _ i (by omega) (by omega)
      · rw [if_neg hx]
        obtain ⟨h1, h2, h3, h4⟩ :=
          ih ((lo + hi) / 2 + 1) hi (by omega) (by omega) hha
        refine ⟨by omega, h2, ?_, h4⟩
        intro i hloi hir
        by_cases hi2 : (lo + hi) / 2 + 1 ≤ i
        · exact h3 i hi2 hir
        · calc a.getD i 0 ≤ a.getD ((lo + hi) / 2) 0 := hs i _ (by omega) (by omega)
            _ ≤ x := not_lt.mp hx
    · rw [if_neg hlt]
      exact ⟨le_refl _, hlh, fun i h1 h2 => absurd h2 (by omega),
        fun i h1 h2 => absurd h2 (by omega)⟩

/-- Insertion-point specification of `bisect_right` on a sorted list:
everything strictly left of the result is `≤ x`, everything at or right of it
is `> x`. -/
lemma bisect_right_spec (a : List ℚ) (x : ℚ)
    (hs : ∀ i j, i ≤ j → j < a.length → a.getD i 0 ≤ a.getD j 0) :
    bisect_right a x ≤ a.length ∧
    (∀ i, i < bisect_right a x → a.getD i 0 ≤ x) ∧
    (∀ i, bisect_right a x ≤ i → i < a.length → x < a.getD i 0) := by
  obtain ⟨h1, h2, h3, h4⟩ :=
    bisect_right_aux_spec a x hs a.length 0 a.length (by omega) (by omega) (le_refl _)
  exact ⟨h2, fun i h => h3 i (by omega) h, h4⟩

/-! ## Slide interval ordering lemmas -/

lemma starts_getD_eq (sl : List (FrameTimecode × FrameTimecode)) (i : Nat)
    (h : i < sl.length) :
    (sl.map fun p => p.1.get_seconds).getD i 0 = (sl.getD i default).1.get_seconds := by
  have h' : i < (sl.map fun p => p.1.get_seconds).length := by simpa using h
  rw [List.getD_eq_getElem _ _ h', List.getD_eq_getElem _ _ h]
  simp

lemma ends_getD_eq (sl : List (FrameTimecode × FrameTimecode)) (i : Nat)
    (h : i < sl.length) :
    (sl.map fun p => p.2.get_seconds).getD i 0 = (sl.getD i default).2.get_seconds := by
  have h' : i < (sl.map fun p => p.2.get_seconds).length := by simpa using h
  rw [List.getD_eq_getElem _ _ h', List.getD_eq_getElem _ _ h]
  simp

lemma ordered_starts_le (sl : List (FrameTimecode × FrameTimecode))
    (h : OrderedSlides sl) :
    ∀ (d i : Nat), i + d < sl.length →
      (sl.getD i default).1.get_seconds ≤ (sl.getD (i + d) default).1.get_seconds := by
  intro d
  induction d with
  | zero => intro i _; simp
  | succ d ih =>
    intro i hlt
    have h1 : (sl.getD i default).1.get_seconds ≤ (sl.getD (i + d) default).1.get_seconds :=
      ih i (by omega)
    have h2 : (sl.getD (i + d) default).1.get_seconds < (sl.getD (i + d) default).2.get_seconds :=
      h.1 (i + d) (by omega)
    have h3 : (sl.getD (i + d) default).2.get_seconds ≤ (sl.getD (i + d + 1) default).1.get_seconds :=
      h.2 (i + d) (by omega) (by omega)
    have : i + (d + 1) = i + d + 1 := by omega
    rw [this]
    exact le_trans h1 (le_trans (le_of_lt h2) h3)

lemma ordered_ends_le (sl : List (FrameTimecode × FrameTimecode))
    (h : OrderedSlides sl) :
    ∀ (d i : Nat), i + d < sl.length →
      (sl.getD i default).2.get_seconds ≤ (sl.getD (i + d) default).2.get_seconds := by
  intro d
  induction d with
  | zero => intro i _; simp
  | succ d ih =>
    intro i hlt
    have h1 : (sl.getD i default).2.get_seconds ≤ (sl.getD (i + d) default).2.get_seconds :=
      ih i (by omega)
    have h2 : (sl.getD (i + d) default).2.get_seconds ≤ (sl.getD (i + d + 1) default).1.get_seconds :=
      h.2 (i + d) (by omega) (by omega)
    have h3 : (sl.getD (i + d + 1) default).1.get_seconds < (sl.getD (i + d + 1) default).2.get_seconds :=
      h.1 (i + d + 1) (by omega)
    have : i + (d + 1) = i + d + 1 := by omega
    rw [this]
    exact le_trans h1 (le_trans h2 (le_of_lt h3))

lemma starts_map_sorted (sl : List (FrameTimecode × FrameTimecode))
    (h : OrderedSlides sl) :
    ∀ i j, i ≤ j → j < (sl.map fun p => p.1.get_seconds).length →
      (sl.map fun p => p.1.get_seconds).getD i 0 ≤
        (sl.map fun p => p.1.get_seconds).getD j 0 := by
  intro i j hij hj
  rw [List.length_map] at hj
  rw [starts_getD_eq sl i (by omega), starts_getD_eq sl j hj]
  have : j = i + (j - i) := by omega
  rw [this]
  exact ordered_starts_le sl h (j - i) i (by omega)

/-! ## Characterization of the per-segment slide lookup -/

lemma assign_index_bounds (starts ends : List ℚ) (n : Nat) (t : ℚ) (i : Nat)
    (h : assign_index starts ends n t = some i) :
    i < n ∧ starts.getD i 0 ≤ t ∧ t < ends.getD i 0 := by
  simp only [assign_index] at h
  split at h
  · rename_i hc
    obtain ⟨h1, h2, h3, h4⟩ := hc
    obtain rfl : ((bisect_right starts t : Int) - 1).toNat = i := by
      simpa using h
    refine ⟨?_, h3, h4⟩
    omega
  · exact absurd h (by simp)

lemma assign_index_eq_some_iff (sl : List (FrameTimecode × FrameTimecode))
    (h : OrderedSlides sl) (t : ℚ) (i : Nat) :
    assign_index (sl.map fun p => p.1.get_seconds) (sl.map fun p => p.2.get_seconds)
        sl.length t = some i ↔
      i < sl.length ∧ (sl.getD i default).1.get_seconds ≤ t ∧
        t < (sl.getD i default).2.get_seconds := by
  constructor
  · intro ha
    obtain ⟨h1, h2, h3⟩ := assign_index_bounds _ _ _ _ _ ha
    rw [starts_getD_eq sl i h1] at h2
    rw [ends_getD_eq sl i h1] at h3
    exact ⟨h1, h2, h3⟩
  · rintro ⟨hi, hlow, hhigh⟩
    obtain ⟨hb1, hb2, hb3⟩ :=
      bisect_right_spec (sl.map fun p => p.1.get_seconds) t (starts_map_sorted sl h)
    rw [List.length_map] at hb1 hb3
    set r := bisect_right (sl.map fun p => p.1.get_seconds) t with hr
    have hge : i + 1 ≤ r := by
      by_contra hcon
      have : t < (sl.map fun p => p.1.get_seconds).getD i 0 := hb3 i (by omega) hi
      rw [starts_getD_eq sl i hi] at this
      exact absurd hlow (not_le.mpr this)
    have hle : r ≤ i + 1 := by
      by_contra hcon
      have hi1 : i + 1 < sl.length := by omega
      have : (sl.map fun p => p.1.get_seconds).getD (i + 1) 0 ≤ t := hb2 (i + 1) (by omega)
      rw [starts_getD_eq sl (i + 1) hi1] at this
      have hsep : (sl.getD i default).2.get_seconds ≤ (sl.getD (i + 1) default).1.get_seconds :=
        h.2 i (by omega) hi1
      have : (sl.getD i default).2.get_seconds ≤ t := le_trans hsep this
      exact absurd hhigh (not_lt.mpr this)
    have hreq : r = i + 1 := by omega
    have key : (((i + 1 : Nat) : Int) - 1).toNat = i := by omega
    simp only [assign_index]
    rw [← hr, hreq, if_pos]
    · rw [key]
    · refine ⟨by omega, by omega, ?_, ?_⟩
      · rw [key, starts_getD_eq sl i hi]
        exact hlow
      · rw [key, ends_getD_eq sl i hi]
        exact hhigh

lemma assign_index_none_of_lt_first (sl : List (FrameTimecode × FrameTimecode))
    (h : OrderedSlides sl) (hne : sl ≠ []) (t : ℚ)
    (ht : t < (sl.getD 0 default).1.get_seconds) (n : Nat) :
    assign_index (sl.map fun p => p.1.get_seconds) (sl.map fun p => p.2.get_seconds)
      n t = none := by
  have hlen : 0 < sl.length := List.length_pos.mpr hne
  obtain ⟨hb1, hb2, hb3⟩ :=
    bisect_right_spec (sl.map fun p => p.1.get_seconds) t (starts_map_sorted sl h)
  have hr0 : bisect_right (sl.map fun p => p.1.get_seconds) t = 0 := by
    by_contra hcon
    have : (sl.map fun p => p.1.get_seconds).getD 0 0 ≤ t := hb2 0 (by omega)
    rw [starts_getD_eq sl 0 hlen] at this
    exact absurd ht (not_lt.mpr this)
  simp only [assign_index]
  rw [hr0, if_neg]
  intro hc
  obtain ⟨h1, _, _, _⟩ := hc
  omega

lemma assign_index_none_of_ge_last (sl : List (FrameTimecode × FrameTimecode))
    (h : OrderedSlides sl) (hne : sl ≠ []) (t : ℚ)
    (ht : (sl.getD (sl.length - 1) default).2.get_seconds ≤ t) :
    assign_index (sl.map fun p => p.1.get_seconds) (sl.map fun p => p.2.get_seconds)
      sl.length t = none := by
  have hlen : 0 < sl.length := List.length_pos.mpr hne
  simp only [assign_index]
  rw [if_neg]
  intro hc
  obtain ⟨h1, h2, h3, h4⟩ := hc
  set i := ((bisect_right (sl.map fun p => p.1.get_seconds) t : Int) - 1).toNat with hi
  have hilt : i < sl.length := by omega
  rw [ends_getD_eq sl i hilt] at h4
  have hmono : (sl.getD i default).2.get_seconds ≤
      (sl.getD (sl.length - 1) default).2.get_seconds := by
    have heq : sl.length - 1 = i + (sl.length - 1 - i) := by omega
    rw [heq]
    exact ordered_ends_le sl h (sl.length - 1 - i) i (by omega)
  exact absurd h4 (not_lt.mpr (le_trans hmono ht))

/-! ## The alignment loop: step and fold lemmas (`video_processing.py` revision) -/

lemma joined_texts_cons (s : ℚ × ℚ × String) (l : List (ℚ × ℚ × String)) :
    joined_texts (s :: l) = s.2.2 ++ " " ++ joined_texts l := rfl

lemma VP_step_length (starts ends : List ℚ) (data : List (AlignedRow String))
    (seg : ℚ × ℚ × String) :
    (VideoProcessing.step starts ends data seg).length = data.length := by
  unfold VideoProcessing.step
  cases h : assign_index starts ends data.length seg.1 with
  | none => rfl
  | some i => exact modifyAt_length _ _ _

lemma VP_step_of_none (starts ends : List ℚ) (data : List (AlignedRow String))
    (seg : ℚ × ℚ × String) (h : assign_index starts ends data.length seg.1 = none) :
    VideoProcessing.step starts ends data seg = data := by
  unfold VideoProcessing.step
  rw [h]

lemma VP_step_map_field {β : Type} (g : AlignedRow String → β)
    (hg : ∀ (r : AlignedRow String) (t : String), g { r with text := t } = g r)
    (starts ends : List ℚ) (data : List (AlignedRow String)) (seg : ℚ × ℚ × String) :
    (VideoProcessing.step starts ends data seg).map g = data.map g := by
  unfold VideoProcessing.step
  cases h : assign_index starts ends data.length seg.1 with
  | none => rfl
  | some i => exact map_modifyAt_invariant g _ (fun r => hg r _) data i

lemma VP_foldl_length (starts ends : List ℚ) (ts : List (ℚ × ℚ × String))
    (data : List (AlignedRow String)) :
    (ts.foldl (VideoProcessing.step starts ends) data).length = data.length :=
  length_foldl_invariant _ _ (VP_step_length starts ends) ts data

lemma VP_foldl_map_field {β : Type} (g : AlignedRow String → β)
    (hg : ∀ (r : AlignedRow String) (t : String), g { r with text := t } = g r)
    (starts ends : List ℚ) :
    ∀ (ts : List (ℚ × ℚ × String)) (data : List (AlignedRow String)),
    (ts.foldl (VideoProcessing.step starts ends) data).map g = data.map g := by
  intro ts
  induction ts with
  | nil => intro data; rfl
  | cons s rest ih =>
    intro data
    simp only [List.foldl_cons]
    rw [ih, VP_step_map_field g hg]

/-- Text accumulated at row `i` by the assignment loop: the initial text
followed by the texts (each with its trailing space) of exactly those
segments the lookup sends to row `i`, in input order. -/
lemma VP_foldl_getD_text (starts ends : List ℚ) :
    ∀ (ts : List (ℚ × ℚ × String)) (data : List (AlignedRow String)) (i : Nat),
    ((ts.foldl (VideoProcessing.step starts ends) data).getD i default).text
      = (data.getD i default).text ++
        joined_texts (ts.filter fun s =>
          decide (assign_index starts ends data.length s.1 = some i)) := by
  intro ts
  induction ts with
  | nil =>
    intro data i
    simp only [List.foldl_nil, List.filter_nil]
    exact (String.append_empty _).symm
  | cons s rest ih =>
    intro data i
    simp only [List.foldl_cons, List.filter_cons]
    rw [ih (VideoProcessing.step starts ends data s) i]
    simp only [VP_step_length]
    cases h : assign_index starts ends data.length s.1 with
    | none =>
      rw [VP_step_of_none starts ends data s h]
      simp [h]
    | some j =>
      by_cases hij : j = i
      · subst hij
        have hjlt : j < data.length := (assign_index_bounds _ _ _ _ _ h).1
        have hstep : VideoProcessing.step starts ends data s =
            modifyAt data j (fun r => { r with text := r.text ++ s.2.2 ++ " " }) := by
          unfold VideoProcessing.step
          rw [h]
        rw [hstep, modifyAt_getD_eq _ data j hjlt]
        simp [h, joined_texts_cons, String.append_assoc]
      · have hstep : VideoProcessing.step starts ends data s =
            modifyAt data j (fun r => { r with text := r.text ++ s.2.2 ++ " " }) := by
          unfold VideoProcessing.step
          rw [h]
        rw [hstep, modifyAt_getD_ne _ data j i (fun hc => hij hc.symm)]
        simp [h, hij]

lemma getD_map_text_pyStrip {α : Type} [Inhabited α] (l : List (AlignedRow α)) (i : Nat) :
    ((l.map fun r => ({ r with text := pyStrip r.text } : AlignedRow α)).getD i default).text
      = pyStrip ((l.getD i default).text) := by
  by_cases h : i < l.length
  · rw [List.getD_eq_getElem _ _ (by simpa using h), List.getElem_map,
      List.getD_eq_getElem _ _ h]
  · rw [List.getD_eq_default _ _ (by simpa using (by omega : l.length ≤ i)),
      List.getD_eq_default _ _ (by omega)]
    rfl

/-- The text of row `i` of the `video_processing.py` alignment: strip the
joined texts of exactly the segments whose lookup lands on row `i`. -/
lemma VP_align_getD_text (ts : List (ℚ × ℚ × String))
    (sl : List (FrameTimecode × FrameTimecode)) (i : Nat) :
    ((VideoProcessing.align_on_seconds ts sl).getD i default).text
      = pyStrip (joined_texts (ts.filter fun s =>
          decide (assign_index (sl.map fun p => p.1.get_seconds)
            (sl.map fun p => p.2.get_seconds) sl.length s.1 = some i))) := by
  simp only [VideoProcessing.align_on_seconds]
  set starts := sl.map fun p => p.1.get_seconds
  set ends := sl.map fun p => p.2.get_seconds
  set data0 : List (AlignedRow String) :=
    sl.map fun p => ⟨p.1.get_timecode, p.2.get_timecode, ""⟩ with hdata0
  have hd0len : data0.length = sl.length := by rw [hdata0, List.length_map]
  have hmaster := VP_foldl_getD_text starts ends ts data0 i
  rw [hd0len] at hmaster
  have hzero : (data0.getD i default).text = "" := by
    by_cases hi : i < sl.length
    · rw [hdata0, List.getD_eq_getElem _ _ (by simpa using hi), List.getElem_map]
    · rw [List.getD_eq_default _ _ (by omega)]
      rfl
  rw [getD_map_text_pyStrip, hmaster, hzero, String.empty_append]

lemma VP_align_length (ts : List (ℚ × ℚ × String))
    (sl : List (FrameTimecode × FrameTimecode)) :
    (VideoProcessing.align_on_seconds ts sl).length = sl.length := by
  simp only [VideoProcessing.align_on_seconds]
  rw [List.length_map, VP_foldl_length, List.length_map]

lemma VP_align_map_start (ts : List (ℚ × ℚ × String))
    (sl : List (FrameTimecode × FrameTimecode)) :
    (VideoProcessing.align_on_seconds ts sl).map AlignedRow.start
      = sl.map fun p => p.1.get_timecode := by
  simp only [VideoProcessing.align_on_seconds]
  rw [List.map_map]
  have h1 : (AlignedRow.start ∘ fun r : AlignedRow String =>
      { r with text := pyStrip r.text }) = AlignedRow.start := rfl
  rw [h1, VP_foldl_map_field AlignedRow.start (fun r t => rfl), List.map_map]
  rfl

lemma VP_align_map_end (ts : List (ℚ × ℚ × String))
    (sl : List (FrameTimecode × FrameTimecode)) :
    (VideoProcessing.align_on_seconds ts sl).map (fun r => r.«end»)
      = sl.map fun p => p.2.get_timecode := by
  simp only [VideoProcessing.align_on_seconds]
  rw [List.map_map]
  have h1 : ((fun r : AlignedRow String => r.«end») ∘ fun r : AlignedRow String =>
      { r with text := pyStrip r.text }) = fun r : AlignedRow String => r.«end» := rfl
  rw [h1, VP_foldl_map_field (fun r : AlignedRow String => r.«end») (fun r t => rfl), List.map_map]
  rfl

/-! ## The alignment loop: step and fold lemmas (`video_file.py` revision) -/

lemma VF_step_length (starts : List ℚ) (data : List (AlignedRow ℚ))
    (seg : ℚ × ℚ × String) :
    (VideoFile.step starts data seg).length = data.length := by
  unfold VideoFile.step
  cases h : assign_index starts (data.map fun r => r.«end») data.length seg.1 with
  | none => rfl
  | some i => exact modifyAt_length _ _ _

lemma VF_step_map_field {β : Type} (g : AlignedRow ℚ → β)
    (hg : ∀ (r : AlignedRow ℚ) (t : String), g { r with text := t } = g r)
    (starts : List ℚ) (data : List (AlignedRow ℚ)) (seg : ℚ × ℚ × String) :
    (VideoFile.step starts data seg).map g = data.map g := by
  unfold VideoFile.step
  cases h : assign_index starts (data.map fun r => r.«end») data.length seg.1 with
  | none => rfl
  | some i => exact map_modifyAt_invariant g _ (fun r => hg r _) data i

lemma VF_foldl_length (starts : List ℚ) (ts : List (ℚ × ℚ × String))
    (data : List (AlignedRow ℚ)) :
    (ts.foldl (VideoFile.step starts) data).length = data.length :=
  length_foldl_invariant _ _ (VF_step_length starts) ts data

lemma VF_foldl_map_field {β : Type} (g : AlignedRow ℚ → β)
    (hg : ∀ (r : AlignedRow ℚ) (t : String), g { r with text := t } = g r)
    (starts : List ℚ) :
    ∀ (ts : List (ℚ × ℚ × String)) (data : List (AlignedRow ℚ)),
    (ts.foldl (VideoFile.step starts) data).map g = data.map g := by
  intro ts
  induction ts with
  | nil => intro data; rfl
  | cons s rest ih =>
    intro data
    simp only [List.foldl_cons]
    rw [ih, VF_step_map_field g hg]

lemma VF_align_length (ts : List (ℚ × ℚ × String))
    (sl : List (FrameTimecode × FrameTimecode)) :
    (VideoFile.align_on_seconds ts sl).length = sl.length := by
  simp only [VideoFile.align_on_seconds]
  rw [List.length_map, VF_foldl_length, List.length_map]

lemma VF_align_map_start (ts : List (ℚ × ℚ × String))
    (sl : List (FrameTimecode × FrameTimecode)) :
    (VideoFile.align_on_seconds ts sl).map AlignedRow.start
      = sl.map fun p => p.1.get_seconds := by
  simp only [VideoFile.align_on_seconds]
  rw [List.map_map]
  have h1 : (AlignedRow.start ∘ fun r : AlignedRow ℚ =>
      { r with text := pyStrip r.text }) = AlignedRow.start := rfl
  rw [h1, VF_foldl_map_field AlignedRow.start (fun r t => rfl), List.map_map]
  rfl

lemma VF_align_map_end (ts : List (ℚ × ℚ × String))
    (sl : List (FrameTimecode × FrameTimecode)) :
    (VideoFile.align_on_seconds ts sl).map (fun r => r.«end»)
      = sl.map fun p => p.2.get_seconds := by
  simp only [VideoFile.align_on_seconds]
  rw [List.map_map]
  have h1 : ((fun r : AlignedRow ℚ => r.«end») ∘ fun r : AlignedRow ℚ =>
      { r with text := pyStrip r.text }) = fun r : AlignedRow ℚ => r.«end» := rfl
  rw [h1, VF_foldl_map_field (fun r : AlignedRow ℚ => r.«end») (fun r t => rfl), List.map_map]
  rfl

/-! ## The two alignment revisions agree on the text column -/

lemma VP_VF_foldl_text (starts ends : List ℚ) :
    ∀ (ts : List (ℚ × ℚ × String)) (dv : List (AlignedRow String))
      (df : List (AlignedRow ℚ)),
      dv.length = df.length →
      df.map (fun r => r.«end») = ends →
      (∀ k, (dv.getD k default).text = (df.getD k default).text) →
      ∀ i, ((ts.foldl (VideoProcessing.step starts ends) dv).getD i default).text
          = ((ts.foldl (VideoFile.step starts) df).getD i default).text := by
  intro ts
  induction ts with
  | nil => intro dv df _ _ htext i; exact htext i
  | cons s rest ih =>
    intro dv df hlen hend htext i
    simp only [List.foldl_cons]
    cases h : assign_index starts ends dv.length s.1 with
    | none =>
      have hVF : VideoFile.step starts df s = df := by
        unfold VideoFile.step
        rw [hend, ← hlen, h]
      rw [VP_step_of_none starts ends dv s h, hVF]
      exact ih dv df hlen hend htext i
    | some j =>
      have hVP : VideoProcessing.step starts ends dv s =
          modifyAt dv j (fun r => { r with text := r.text ++ s.2.2 ++ " " }) := by
        unfold VideoProcessing.step
        rw [h]
      have hVF : VideoFile.step starts df s =
          modifyAt df j (fun r => { r with text := r.text ++ s.2.2 ++ " " }) := by
        unfold VideoFile.step
        rw [hend, ← hlen, h]
      rw [hVP, hVF]
      apply ih
      · rw [modifyAt_length, modifyAt_length]
        exact hlen
      · rw [map_modifyAt_invariant (fun r : AlignedRow ℚ => r.«end»)
          (fun r => { r with text := r.text ++ s.2.2 ++ " " }) (fun r => rfl)]
        exact hend
      · intro k
        by_cases hk : k = j
        · subst hk
          by_cases hklt : k < dv.length
          · rw [modifyAt_getD_eq _ dv k hklt, modifyAt_getD_eq _ df k (by omega)]
            show (dv.getD k default).text ++ s.2.2 ++ " "
              = (df.getD k default).text ++ s.2.2 ++ " "
            rw [htext k]
          · rw [modifyAt_getD_of_ge _ dv k (by omega),
              modifyAt_getD_of_ge _ df k (by omega)]
            exact htext k
        · rw [modifyAt_getD_ne _ dv j k hk, modifyAt_getD_ne _ df j k hk]
          exact htext k

lemma VP_VF_align_text (ts : List (ℚ × ℚ × String))
    (sl : List (FrameTimecode × FrameTimecode)) (i : Nat) :
    ((VideoProcessing.align_on_seconds ts sl).getD i default).text
      = ((VideoFile.align_on_seconds ts sl).getD i default).text := by
  simp only [VideoProcessing.align_on_seconds, VideoFile.align_on_seconds]
  set starts := sl.map fun p => p.1.get_seconds
  set ends := sl.map fun p => p.2.get_seconds with hends
  set dv0 : List (AlignedRow String) :=
    sl.map fun p => ⟨p.1.get_timecode, p.2.get_timecode, ""⟩ with hdv0
  set df0 : List (AlignedRow ℚ) :=
    sl.map fun p => ⟨p.1.get_seconds, p.2.get_seconds, ""⟩ with hdf0
  have hlen0 : dv0.length = df0.length := by
    rw [hdv0, hdf0, List.length_map, List.length_map]
  have hend0 : df0.map (fun r => r.«end») = ends := by
    rw [hdf0, hends, List.map_map]
    rfl
  have htext0 : ∀ k, (dv0.getD k default).text = (df0.getD k default).text := by
    intro k
    by_cases hk : k < sl.length
    · rw [hdv0, hdf0, List.getD_eq_getElem _ _ (by simpa using hk),
        List.getD_eq_getElem _ _ (by simpa using hk), List.getElem_map,
        List.getElem_map]
    · have h1 : dv0.length ≤ k := by rw [hdv0, List.length_map]; omega
      have h2 : df0.length ≤ k := by rw [hdf0, List.length_map]; omega
      rw [List.getD_eq_default _ _ h1, List.getD_eq_default _ _ h2]
      rfl
  rw [getD_map_text_pyStrip, getD_map_text_pyStrip,
    VP_VF_foldl_text starts ends ts dv0 df0 hlen0 hend0 htext0 i]

lemma filter_eq_some_nodup_le_one (v : Option Nat) :
    ∀ (l : List Nat), l.Nodup →
      (l.filter fun i => decide (v = some i)).length ≤ 1 := by
  intro l
  induction l with
  | nil => intro _; simp
  | cons a l ih =>
    intro hnd
    rw [List.filter_cons]
    by_cases hv : v = some a
    · rw [if_pos (by simpa using hv)]
      have hnil : (l.filter fun i => decide (v = some i)) = [] := by
        rw [List.filter_eq_nil_iff]
        intro b hb hdec
        have hvb : v = some b := of_decide_eq_true hdec
        have hab : b = a := by
          rw [hv] at hvb
          simpa using hvb.symm
        subst hab
        exact (List.nodup_cons.mp hnd).1 hb
      rw [hnil]
      simp
    · rw [if_neg (by simpa using hv)]
      exact ih (List.nodup_cons.mp hnd).2

/-! ## Claims -/

/-- C1: for every transcription list and every slide interval list, the
`video_processing.py` revision of `align_transcription_with_slides` returns
(when no timestamp is malformed) exactly one row per slide interval, and the
rows are in the order of the input intervals: row `i` carries the `i`-th
interval's start and end timecodes. -/
theorem align_one_row_per_slide_in_order
    (ts : List (String × String × String))
    (sl : List (FrameTimecode × FrameTimecode)) :
    (VideoProcessing.align_transcription_with_slides ts sl).map List.length
      = (VideoProcessing.align_transcription_with_slides ts sl).map
          (fun _ => sl.length)
    ∧ (VideoProcessing.align_transcription_with_slides ts sl).map
          (List.map AlignedRow.start)
      = (VideoProcessing.align_transcription_with_slides ts sl).map
          (fun _ => sl.map fun p => p.1.get_timecode)
    ∧ (VideoProcessing.align_transcription_with_slides ts sl).map
          (List.map fun r => r.«end»)
      = (VideoProcessing.align_transcription_with_slides ts sl).map
          (fun _ => sl.map fun p => p.2.get_timecode) := by
  simp only [VideoProcessing.align_transcription_with_slides]
  cases hm : ts.mapM parse_segment with
  | none => exact ⟨rfl, rfl, rfl⟩
  | some ts' =>
    refine ⟨?_, ?_, ?_⟩
    · simp [VP_align_length]
    · simp [VP_align_map_start]
    · simp [VP_align_map_end]

/-- C6: `time_to_seconds` converts `HH:MM:SS.ffffff` by decomposing hours,
minutes, seconds and fractional microseconds and returning
`h*3600 + m*60 + s + us/1e6`; in particular `"00:01:02.500000"` gives
exactly 62.5 seconds. -/
theorem time_to_seconds_decomposition :
    (∀ (s : String) (h m sec us : Nat), strptime_HMSf s = some (h, m, sec, us) →
      time_to_seconds s
        = some ((h : ℚ) * 3600 + (m : ℚ) * 60 + (sec : ℚ) + (us : ℚ) / 1000000))
    ∧ time_to_seconds "00:01:02.500000" = some (62.5 : ℚ) := by
  constructor
  · intro s h m sec us hp
    rw [time_to_seconds, hp]
    rfl
  · rw [time_to_seconds,
      show strptime_HMSf "00:01:02.500000" = some (0, 1, 2, 500000) from by decide]
    simp only [Option.map_some', Option.some.injEq]
    norm_num

/-- Witness for C6: the parser decomposes `"00:01:02.500000"` into
`(0, 1, 2, 500000)` and the conversion theorem applies to it. -/
theorem time_to_seconds_decomposition_witness :
    strptime_HMSf "00:01:02.500000" = some (0, 1, 2, 500000)
    ∧ time_to_seconds "00:01:02.500000"
        = some ((0 : ℚ) * 3600 + (1 : ℚ) * 60 + (2 : ℚ) + (500000 : ℚ) / 1000000) :=
  ⟨by decide,
   time_to_seconds_decomposition.1 "00:01:02.500000" 0 1 2 500000 (by decide)⟩

/-- C7: `detect_slide_changes` rejects every method name other than the five
recognized ones with `ValueError('Invalid detection method: ...')` before any
detector is constructed, added or invoked (the result is this error for every
possible behaviour `f` of the scene-detection library), and each recognized
name constructs the corresponding detector with the given threshold. -/
theorem detect_slide_changes_dispatch :
    (∀ (m : String) (t : ℚ)
        (f : Detector → List (FrameTimecode × FrameTimecode)),
      m ∉ (["adaptive", "content", "threshold", "histogram", "hash"] : List String) →
      detect_slide_changes m t f = .error ("Invalid detection method: " ++ m))
    ∧ (∀ (t : ℚ) (f : Detector → List (FrameTimecode × FrameTimecode)),
        detect_slide_changes "adaptive" t f = .ok (f (.adaptiveDetector t)))
    ∧ (∀ (t : ℚ) (f : Detector → List (FrameTimecode × FrameTimecode)),
        detect_slide_changes "content" t f = .ok (f (.contentDetector t)))
    ∧ (∀ (t : ℚ) (f : Detector → List (FrameTimecode × FrameTimecode)),
        detect_slide_changes "threshold" t f = .ok (f (.thresholdDetector t)))
    ∧ (∀ (t : ℚ) (f : Detector → List (FrameTimecode × FrameTimecode)),
        detect_slide_changes "histogram" t f = .ok (f (.histogramDetector t)))
    ∧ (∀ (t : ℚ) (f : Detector → List (FrameTimecode × FrameTimecode)),
        detect_slide_changes "hash" t f = .ok (f (.hashDetector t))) := by
  refine ⟨?_, ?_, ?_, ?_, ?_, ?_⟩
  · intro m t f hm
    simp only [List.mem_cons, List.mem_singleton, not_or] at hm
    obtain ⟨h1, h2, h3, h4, h5, _⟩ := hm
    simp [detect_slide_changes, choose_detector, h1, h2, h3, h4, h5]
  all_goals intro t f; rfl

/-- Witness for C7: the unrecognized name `"ssim"` is rejected. -/
theorem detect_slide_changes_dispatch_witness :
    ("ssim" : String) ∉
        (["adaptive", "content", "threshold", "histogram", "hash"] : List String)
    ∧ detect_slide_changes "ssim" 1 (fun _ => [])
        = .error ("Invalid detection method: " ++ "ssim") :=
  ⟨by decide,
   detect_slide_changes_dispatch.1 "ssim" 1 (fun _ => []) (by decide)⟩

/-- C9: with the default empty `initial_prompt_path`, the guard
`if initial_prompt_path or initial_prompt_path != '':` is false in each of
the three CLI commands, so the local `initial_prompt` is never assigned and
the subsequent `transcribe_audio` call raises `UnboundLocalError`: the
command cannot complete, whatever the prompt-file contents would have
been. -/
theorem cli_empty_initial_prompt_path_unbound_local :
    ∀ read_file : String → String,
      Cli.split_video_file_initial_prompt "" read_file
        = .error "UnboundLocalError: local variable referenced before assignment"
      ∧ Cli.transcribe_video_file_initial_prompt "" read_file
        = .error "UnboundLocalError: local variable referenced before assignment"
      ∧ Cli.transcribe_audio_file_initial_prompt "" read_file
        = .error "UnboundLocalError: local variable referenced before assignment" := by
  intro read_file
  refine ⟨?_, ?_, ?_⟩ <;> rfl

/-- C2: for ordered non-overlapping slides, a segment whose start lies
exactly on the boundary between interval `i` and interval `i+1` is assigned
by the alignment loop to interval `i+1` (the one that starts at the
boundary), not to interval `i`: the lookup returns `i+1`, and aligning the
single boundary segment puts its text in row `i+1` and leaves row `i`
empty. -/
theorem boundary_segment_goes_to_later_interval
    (sl : List (FrameTimecode × FrameTimecode)) (h : OrderedSlides sl)
    (i : Nat) (hi : i + 1 < sl.length) (t : ℚ)
    (ht : t = (sl.getD (i + 1) default).1.get_seconds)
    (_hb : (sl.getD i default).2.get_seconds = t) :
    assign_index (sl.map fun p => p.1.get_seconds)
        (sl.map fun p => p.2.get_seconds) sl.length t = some (i + 1)
    ∧ ∀ (e : ℚ) (txt : String),
        ((VideoProcessing.align_on_seconds [(t, e, txt)] sl).getD (i + 1) default).text
          = pyStrip (txt ++ " ")
        ∧ ((VideoProcessing.align_on_seconds [(t, e, txt)] sl).getD i default).text
          = "" := by
  have hassign : assign_index (sl.map fun p => p.1.get_seconds)
      (sl.map fun p => p.2.get_seconds) sl.length t = some (i + 1) :=
    (assign_index_eq_some_iff sl h t (i + 1)).mpr
      ⟨hi, by rw [ht], by rw [ht]; exact h.1 (i + 1) hi⟩
  refine ⟨hassign, ?_⟩
  intro e txt
  constructor
  · rw [VP_align_getD_text]
    rw [List.filter_cons, if_pos (by simp [hassign]), List.filter_nil,
      joined_texts_cons]
    rw [show joined_texts [] = "" from rfl, String.append_empty]
  · rw [VP_align_getD_text]
    rw [List.filter_cons, if_neg (by simp [hassign]), List.filter_nil]
    rfl

/-- Witness for C2, on the specification's worked example slides
`[(0, 10), (10, 25)]`: the segment starting at `10` goes to the second
interval, and aligning the example's four segments indeed yields texts
`["A", "B C"]` with the segment at `25` dropped. -/
theorem boundary_segment_goes_to_later_interval_witness :
    OrderedSlides exampleSlides
    ∧ 0 + 1 < exampleSlides.length
    ∧ (10 : ℚ) = (exampleSlides.getD (0 + 1) default).1.get_seconds
    ∧ (exampleSlides.getD 0 default).2.get_seconds = (10 : ℚ)
    ∧ assign_index (exampleSlides.map fun p => p.1.get_seconds)
        (exampleSlides.map fun p => p.2.get_seconds) exampleSlides.length 10
        = some (0 + 1)
    ∧ (VideoProcessing.align_on_seconds
        [(2, 3, "A"), (10, 11, "B"), (mkRat 249 10, 25, "C"), (25, 26, "D")]
        exampleSlides).map (fun r => r.text) = ["A", "B C"] :=
  ⟨by decide, by decide, by decide, by decide,
   (boundary_segment_goes_to_later_interval exampleSlides (by decide) 0 (by decide)
      10 (by decide) (by decide)).1,
   by decide⟩

/-- C3: for ordered non-overlapping slides, a segment starting strictly
before the first interval's start, or at/after the final interval's end,
contributes to no output row: removing it from the transcription list does
not change the alignment output at all. -/
theorem out_of_span_segment_dropped
    (sl : List (FrameTimecode × FrameTimecode)) (h : OrderedSlides sl)
    (hne : sl ≠ []) (t : ℚ)
    (ht : t < (sl.getD 0 default).1.get_seconds
      ∨ (sl.getD (sl.length - 1) default).2.get_seconds ≤ t) :
    ∀ (ts₁ ts₂ : List (ℚ × ℚ × String)) (e : ℚ) (txt : String),
      VideoProcessing.align_on_seconds (ts₁ ++ (t, e, txt) :: ts₂) sl
        = VideoProcessing.align_on_seconds (ts₁ ++ ts₂) sl := by
  have hassign : assign_index (sl.map fun p => p.1.get_seconds)
      (sl.map fun p => p.2.get_seconds) sl.length t = none := by
    cases ht with
    | inl h1 => exact assign_index_none_of_lt_first sl h hne t h1 sl.length
    | inr h2 => exact assign_index_none_of_ge_last sl h hne t h2
  intro ts₁ ts₂ e txt
  simp only [VideoProcessing.align_on_seconds]
  congr 1
  rw [List.foldl_append, List.foldl_append, List.foldl_cons]
  congr 1
  apply VP_step_of_none
  rw [VP_foldl_length, List.length_map]
  exact hassign

/-- Witness for C3, on the example slides `[(0, 10), (10, 25)]`: the segment
starting at `25` (the final interval's end) is dropped — aligning with and
without it gives the same rows. -/
theorem out_of_span_segment_dropped_witness :
    OrderedSlides exampleSlides
    ∧ exampleSlides ≠ []
    ∧ ((25 : ℚ) < (exampleSlides.getD 0 default).1.get_seconds
        ∨ (exampleSlides.getD (exampleSlides.length - 1) default).2.get_seconds
            ≤ (25 : ℚ))
    ∧ VideoProcessing.align_on_seconds
        [(2, 3, "A"), (10, 11, "B"), (25, 26, "D")] exampleSlides
      = VideoProcessing.align_on_seconds [(2, 3, "A"), (10, 11, "B")]
          exampleSlides :=
  ⟨by decide, by decide, by decide,
   out_of_span_segment_dropped exampleSlides (by decide) (by decide) 25
     (by decide) [(2, 3, "A"), (10, 11, "B")] [] 26 "D"⟩

/-- C4: for ordered non-overlapping slides, the text of output row `i` is
the concatenation (each text followed by the separating space, then stripped)
of exactly the input segments whose start lies in `[start_i, end_i)`, in
input order; an interval with no matching segment gets the empty string, and
the resulting text never has leading or trailing whitespace. -/
theorem slide_text_is_stripped_join_of_matching_segments
    (ts : List (ℚ × ℚ × String)) (sl : List (FrameTimecode × FrameTimecode))
    (h : OrderedSlides sl) (i : Nat) (hi : i < sl.length) :
    ((VideoProcessing.align_on_seconds ts sl).getD i default).text
      = pyStrip (joined_texts (ts.filter fun s =>
          decide ((sl.getD i default).1.get_seconds ≤ s.1 ∧
            s.1 < (sl.getD i default).2.get_seconds)))
    ∧ ((ts.filter fun s =>
          decide ((sl.getD i default).1.get_seconds ≤ s.1 ∧
            s.1 < (sl.getD i default).2.get_seconds)) = [] →
        ((VideoProcessing.align_on_seconds ts sl).getD i default).text = "")
    ∧ noEdgeWhitespace
        ((VideoProcessing.align_on_seconds ts sl).getD i default).text := by
  have hfeq : (ts.filter fun s =>
      decide (assign_index (sl.map fun p => p.1.get_seconds)
        (sl.map fun p => p.2.get_seconds) sl.length s.1 = some i))
      = ts.filter fun s =>
        decide ((sl.getD i default).1.get_seconds ≤ s.1 ∧
          s.1 < (sl.getD i default).2.get_seconds) := by
    apply List.filter_congr
    intro s _
    apply decide_eq_decide.mpr
    rw [assign_index_eq_some_iff sl h s.1 i]
    constructor
    · rintro ⟨_, h2, h3⟩
      exact ⟨h2, h3⟩
    · rintro ⟨h2, h3⟩
      exact ⟨hi, h2, h3⟩
  have h1 : ((VideoProcessing.align_on_seconds ts sl).getD i default).text
      = pyStrip (joined_texts (ts.filter fun s =>
          decide ((sl.getD i default).1.get_seconds ≤ s.1 ∧
            s.1 < (sl.getD i default).2.get_seconds))) := by
    rw [VP_align_getD_text, hfeq]
  refine ⟨h1, ?_, ?_⟩
  · intro hempty
    rw [h1, hempty]
    rfl
  · rw [h1]
    exact noEdgeWhitespace_pyStrip _

/-- Witness for C4, on the example slides: row `1` of the example alignment
is the stripped join `"B C"` of its two matching segments. -/
theorem slide_text_is_stripped_join_of_matching_segments_witness :
    OrderedSlides exampleSlides
    ∧ 1 < exampleSlides.length
    ∧ ((VideoProcessing.align_on_seconds
          [(2, 3, "A"), (10, 11, "B"), (mkRat 249 10, 25, "C"), (25, 26, "D")]
          exampleSlides).getD 1 default).text
        = pyStrip (joined_texts
            (([(2, 3, "A"), (10, 11, "B"), (mkRat 249 10, 25, "C"), (25, 26, "D")] :
                List (ℚ × ℚ × String)).filter fun s =>
              decide ((exampleSlides.getD 1 default).1.get_seconds ≤ s.1 ∧
                s.1 < (exampleSlides.getD 1 default).2.get_seconds))) :=
  ⟨by decide, by decide,
   (slide_text_is_stripped_join_of_matching_segments
      [(2, 3, "A"), (10, 11, "B"), (mkRat 249 10, 25, "C"), (25, 26, "D")]
      exampleSlides (by decide) 1 (by decide)).1⟩

/-- C5: a transcript segment is appended to at most one output row: removing
one segment from the transcription list changes the text of at most one row
of the alignment output. -/
theorem segment_assigned_to_at_most_one_row
    (ts₁ ts₂ : List (ℚ × ℚ × String)) (s : ℚ × ℚ × String)
    (sl : List (FrameTimecode × FrameTimecode)) :
    ((List.range sl.length).filter fun i =>
      decide (((VideoProcessing.align_on_seconds (ts₁ ++ s :: ts₂) sl).getD i
          default).text
        ≠ ((VideoProcessing.align_on_seconds (ts₁ ++ ts₂) sl).getD i
          default).text)).length ≤ 1 := by
  set v := assign_index (sl.map fun p => p.1.get_seconds)
    (sl.map fun p => p.2.get_seconds) sl.length s.1 with hv
  have key : ∀ i : Nat,
      ((VideoProcessing.align_on_seconds (ts₁ ++ s :: ts₂) sl).getD i
          default).text
        ≠ ((VideoProcessing.align_on_seconds (ts₁ ++ ts₂) sl).getD i
          default).text → v = some i := by
    intro i hdiff
    by_contra hvne
    apply hdiff
    rw [VP_align_getD_text, VP_align_getD_text]
    congr 2
    rw [List.filter_append, List.filter_append, List.filter_cons,
      if_neg (by simpa using hvne)]
  calc ((List.range sl.length).filter fun i =>
        decide (((VideoProcessing.align_on_seconds (ts₁ ++ s :: ts₂) sl).getD i
            default).text
          ≠ ((VideoProcessing.align_on_seconds (ts₁ ++ ts₂) sl).getD i
            default).text)).length
      = (List.range sl.length).countP fun i =>
          decide (((VideoProcessing.align_on_seconds (ts₁ ++ s :: ts₂) sl).getD i
              default).text
            ≠ ((VideoProcessing.align_on_seconds (ts₁ ++ ts₂) sl).getD i
              default).text) := (List.countP_eq_length_filter _ _).symm
    _ ≤ (List.range sl.length).countP fun i => decide (v = some i) := by
        apply List.countP_mono_left
        intro i _ hdec
        exact decide_eq_true (key i (of_decide_eq_true hdec))
    _ = ((List.range sl.length).filter fun i => decide (v = some i)).length :=
        List.countP_eq_length_filter _ _
    _ ≤ 1 := filter_eq_some_nodup_le_one v _ (List.nodup_range sl.length)

/-- C8: when the transcription file already exists and `overwrite` is false,
`transcribe_audio` leaves the filesystem unchanged (no rewrite), returns the
cached captions, and produces no whisper result — the outcome is the same for
every possible model behaviour `g`, so `model.transcribe` is never consulted;
consequently the aligned-slide table computed from the returned segments is
the one computed from the cached captions. -/
theorem transcribe_audio_cache_skip {R : Type}
    (files : String → Option AudioProcessing.VttDoc) (p : String)
    (doc : AudioProcessing.VttDoc) (h : files p = some doc)
    (g : Unit → R) (w : R → AudioProcessing.VttDoc) :
    AudioProcessing.transcribe_audio files p false g w = (files, (doc, none))
    ∧ ∀ sl, VideoProcessing.align_transcription_with_slides
          (AudioProcessing.transcribe_audio files p false g w).2.1 sl
        = VideoProcessing.align_transcription_with_slides doc sl := by
  have hmain : AudioProcessing.transcribe_audio files p false g w
      = (files, (doc, none)) := by
    unfold AudioProcessing.transcribe_audio
    rw [if_pos ⟨rfl, by rw [h]; rfl⟩, h]
    rfl
  exact ⟨hmain, fun sl => by rw [hmain]⟩

/-- Witness for C8: a concrete filesystem holding one cached transcription
file; rerunning with `overwrite = False` returns the cached captions without
touching the filesystem or the model. -/
theorem transcribe_audio_cache_skip_witness :
    cachedFiles "output/transcription.vtt"
        = some [("00:00:00.000", "00:00:01.000", "hello")]
    ∧ AudioProcessing.transcribe_audio cachedFiles "output/transcription.vtt"
        false (fun _ => ()) (fun _ => [])
      = (cachedFiles, ([("00:00:00.000", "00:00:01.000", "hello")], none)) :=
  ⟨by decide,
   (transcribe_audio_cache_skip cachedFiles "output/transcription.vtt"
      [("00:00:00.000", "00:00:01.000", "hello")] (by decide)
      (fun _ => ()) (fun _ => [])).1⟩

/-- C10: the two revisions of `align_transcription_with_slides` are
equivalent on the text column — for every input they succeed or fail
together and produce row-wise identical texts — and differ only in how the
start/end columns are rendered: the `video_file.py` revision emits
`get_seconds()` values, the `video_processing.py` revision emits
`get_timecode()` strings. -/
theorem align_revisions_text_equivalent
    (ts : List (String × String × String))
    (sl : List (FrameTimecode × FrameTimecode)) :
    (VideoProcessing.align_transcription_with_slides ts sl).map
        (List.map fun r => r.text)
      = (VideoFile.align_transcription_with_slides ts sl).map
          (List.map fun r => r.text)
    ∧ (VideoProcessing.align_transcription_with_slides ts sl).map
          (List.map AlignedRow.start)
      = (VideoProcessing.align_transcription_with_slides ts sl).map
          (fun _ => sl.map fun p => p.1.get_timecode)
    ∧ (VideoProcessing.align_transcription_with_slides ts sl).map
          (List.map fun r => r.«end»)
      = (VideoProcessing.align_transcription_with_slides ts sl).map
          (fun _ => sl.map fun p => p.2.get_timecode)
    ∧ (VideoFile.align_transcription_with_slides ts sl).map
          (List.map AlignedRow.start)
      = (VideoFile.align_transcription_with_slides ts sl).map
          (fun _ => sl.map fun p => p.1.get_seconds)
    ∧ (VideoFile.align_transcription_with_slides ts sl).map
          (List.map fun r => r.«end»)
      = (VideoFile.align_transcription_with_slides ts sl).map
          (fun _ => sl.map fun p => p.2.get_seconds) := by
  simp only [VideoProcessing.align_transcription_with_slides,
    VideoFile.align_transcription_with_slides]
  cases hm : ts.mapM parse_segment with
  | none => exact ⟨rfl, rfl, rfl, rfl, rfl⟩
  | some ts' =>
    refine ⟨?_, ?_, ?_, ?_, ?_⟩
    · simp only [Option.map_some']
      congr 1
      apply List.ext_getElem
      · rw [List.length_map, List.length_map, VP_align_length, VF_align_length]
      · intro n h1 h2
        rw [List.getElem_map, List.getElem_map]
        have h1' : n < (VideoProcessing.align_on_seconds ts' sl).length := by
          simpa using h1
        have h2' : n < (VideoFile.align_on_seconds ts' sl).length := by
          simpa using h2
        rw [← List.getD_eq_getElem _ default h1',
          ← List.getD_eq_getElem _ default h2']
        exact VP_VF_align_text ts' sl n
    · simp only [Option.map_some']
      congr 1
      exact VP_align_map_start ts' sl
    · simp only [Option.map_some']
      congr 1
      exact VP_align_map_end ts' sl
    · simp only [Option.map_some']
      congr 1
      exact VF_align_map_start ts' sl
    · simp only [Option.map_some']
      congr 1
      exact VF_align_map_end ts' sl
